import Mathlib

/-!
Verification of the MarkovSuggestor repository against its specification.

Each Python module that the specification's claims touch is shallowly
embedded here: pure functions become Lean functions over `ℚ` (for the
numeric code), `ℝ` (for the cosine similarity, where the claim is about
division faults), `String`/`List` (for the tokenizers and extractors).
Fallible computations return `Option`.

Sections, in order:
 * generic list helpers (maxima, first argmax, stable insertion sorts);
 * `src/core/markov.py` (`HiddenMarkovModel`: viterbi, predict_intent);
 * `src/core/file_manager.py` (`FileManager` over an embedded Python AST);
 * `src/embedder.py` (`FunctionEmbedder`: cosine similarity, top-k search);
 * `src/observer.py` (co-occurrence learning and suggestions);
 * `src/code_explainer_heavy.py` (`_analyze_complexity`);
 * the claim theorems.
-/

namespace MarkovSuggestor

/-! ### Generic list helpers -/

/-- Maximum of a list of rationals; `torch.max` on a nonempty 1-D tensor.
The `[]` case is never reached by the embedded code. -/
def listMax : List ℚ → ℚ
  | [] => 0
  | [x] => x
  | x :: y :: ys => max x (listMax (y :: ys))

/-- Index of the first occurrence of `m` in the list (`0` past the end). -/
def firstIdxOf (m : ℚ) : List ℚ → ℕ
  | [] => 0
  | x :: xs => if x = m then 0 else firstIdxOf m xs + 1

/-- `torch.argmax` on a 1-D tensor: the index of the first maximal value. -/
def listArgmax (l : List ℚ) : ℕ :=
  firstIdxOf (listMax l) l

/-! ### `src/core/markov.py` — `HiddenMarkovModel`

Probabilities are embedded as exact rationals (`torch.float32` arithmetic is
modelled exactly; the claims are about the algebraic recurrences).
A constructed model carries the fields set up by `__init__`:
`observable_states` (the `[]` default when `None` is passed), `hidden_states`,
the transition matrix, the optional emission matrix, and the uniform initial
distribution `ones(n)/n`. -/

structure PyHMM where
  observable_states : List String
  hidden_states : List String
  transition : ℕ → ℕ → ℚ
  emission : Option (ℕ → ℕ → ℚ)
  initial : List ℚ

namespace PyHMM

/-- `self.n_hidden`. -/
def nH (h : PyHMM) : ℕ := h.hidden_states.length

/-- `HiddenMarkovModel._get_observation_index`: first index of the token in
`observable_states`, `None` when the vocabulary is empty or misses it. -/
def get_observation_index (h : PyHMM) (observation : String) : Option ℕ :=
  if h.observable_states ≠ [] ∧ observation ∈ h.observable_states then
    some (h.observable_states.indexOf observation)
  else
    none

/-- `HiddenMarkovModel._rule_based_emission`: a constant baseline `0.01`
vector, normalized by its sum. -/
def rule_based_emission (h : PyHMM) : List ℚ :=
  let probs : List ℚ := List.replicate h.nH (1 / 100)
  probs.map (fun x => x / probs.sum)

/-- `HiddenMarkovModel._get_emission_probs`: the emission-matrix column when
both the matrix and the index exist, the rule-based vector otherwise. -/
def get_emission_probs (h : PyHMM) (obs_idx : Option ℕ) : List ℚ :=
  match h.emission, obs_idx with
  | some e, some i => (List.range h.nH).map (fun s => e s i)
  | _, _ => h.rule_based_emission

/-- Column `t = 0` of the viterbi matrix: `initial * emission` elementwise
when the first observation has an index, plain `initial` otherwise. -/
def viterbiFirstCol (h : PyHMM) (obs0 : String) : List ℚ :=
  match h.get_observation_index obs0 with
  | some i => List.zipWith (· * ·) h.initial (h.get_emission_probs (some i))
  | none => h.initial

/-- The `trans_probs` vector of the forward pass at target state `s`:
`viterbi_matrix[:, t-1] * self.transition[:, s]`. -/
def transProbs (h : PyHMM) (prevV : List ℚ) (s : ℕ) : List ℚ :=
  (List.range h.nH).map (fun p => prevV.getD p 0 * h.transition p s)

/-- One step of the forward pass (`t ≥ 1`): produces the viterbi column
(`max(trans_probs) * emission_probs[s]`) and the backpointer column
(`argmax(trans_probs)`). -/
def viterbiStep (h : PyHMM) (prevV : List ℚ) (obs : String) : List ℚ × List ℕ :=
  let e := h.get_emission_probs (h.get_observation_index obs)
  let rows := (List.range h.nH).map (fun s =>
    (listMax (h.transProbs prevV s) * e.getD s 0, listArgmax (h.transProbs prevV s)))
  (rows.map Prod.fst, rows.map Prod.snd)

/-- The remaining columns of the forward pass, starting from column `c`. -/
def vgo (h : PyHMM) (c : List ℚ × List ℕ) : List String → List (List ℚ × List ℕ)
  | [] => [c]
  | o :: rest => c :: vgo h (h.viterbiStep c.1 o) rest

/-- All columns `(V[:, t], B[:, t])` of the viterbi and backpointer matrices,
one per observation; backpointer column `0` is the `zeros` initialization. -/
def viterbiCols (h : PyHMM) : List String → List (List ℚ × List ℕ)
  | [] => []
  | o :: rest => h.vgo (h.viterbiFirstCol o, List.replicate h.nH 0) rest

/-- The backtracking loop: given the columns in reverse order, the previous
column and the previously chosen state, prepend `B[path[t+1], t+1]`. -/
def btGo : List (List ℚ × List ℕ) → (List ℚ × List ℕ) → ℕ → List ℕ → List ℕ
  | [], _, _, acc => acc
  | c :: cs, prevCol, prevP, acc =>
    btGo cs c (prevCol.2.getD prevP 0) (prevCol.2.getD prevP 0 :: acc)

/-- Backtracking: `path[T-1] = argmax(V[:, T-1])`, then
`path[t] = B[path[t+1], t+1]` for `t = T-2 .. 0`. -/
def backtrack (cols : List (List ℚ × List ℕ)) : List ℕ :=
  match cols.reverse with
  | [] => []
  | last :: rest => btGo rest last (listArgmax last.1) [listArgmax last.1]

/-- `HiddenMarkovModel.viterbi`: decode the observation sequence to hidden
state names (the empty sequence decodes to `[]`). -/
def viterbi (h : PyHMM) (observations : List String) : List String :=
  (backtrack (h.viterbiCols observations)).map (fun i => h.hidden_states.getD i "")

end PyHMM

/-- `str.lower()` (ASCII). -/
def pyLower (s : String) : String := ⟨s.data.map Char.toLower⟩

/-- `str.upper()` (ASCII). -/
def pyUpper (s : String) : String := ⟨s.data.map Char.toUpper⟩

/-- Substring occurrence check on character lists. -/
def containsSub (sub : List Char) : List Char → Bool
  | [] => sub.isEmpty
  | c :: rest => sub.isPrefixOf (c :: rest) || containsSub sub rest

/-- Python `sub in s` substring containment. -/
def pyContains (sub s : String) : Bool := containsSub sub.data s.data

/-- `str.replace('_', ' ')`. -/
def underscoreToSpace (s : String) : String :=
  ⟨s.data.map (fun c => if c = '_' then ' ' else c)⟩

/-- The character loop of `str.title()` (ASCII): a letter after a non-letter
is uppercased, a letter after a letter is lowercased. -/
def pyTitleChars : List Char → Bool → List Char
  | [], _ => []
  | c :: rest, prevCased =>
    (if c.isAlpha then (if prevCased then c.toLower else c.toUpper) else c)
      :: pyTitleChars rest c.isAlpha

/-- `str.title()` (ASCII). -/
def pyTitle (s : String) : String := ⟨pyTitleChars s.data false⟩

/-- The scanning loop of `distinctKeys` (fueled; the filtered tail is
shorter than the input, so the list length is enough fuel). -/
def distinctKeysAux : ℕ → List String → List String
  | 0, _ => []
  | _ + 1, [] => []
  | fuel + 1, x :: xs => x :: distinctKeysAux fuel (xs.filter (fun y => y ≠ x))

/-- The distinct elements of a list in first-seen order: the iteration order
of a Python `dict` keyed by the elements. -/
def distinctKeys (l : List String) : List String := distinctKeysAux l.length l

/-- Maximum of a list of naturals (`0` on `[]`). -/
def natListMax (l : List ℕ) : ℕ := l.foldr max 0

namespace PyHMM

/-- `HiddenMarkovModel._get_dominant_state`: the first state (in first-seen
order, the iteration order of the `state_counts` dict) attaining the maximal
occurrence count; `None` on the empty sequence. -/
def get_dominant_state (state_sequence : List String) : Option String :=
  if state_sequence = [] then none
  else
    let keys := distinctKeys state_sequence
    let mx := natListMax (keys.map (fun k => state_sequence.count k))
    keys.find? (fun k => state_sequence.count k = mx)

/-- `HiddenMarkovModel._generate_state_summary`. -/
def generate_state_summary (state_sequence : List String) : String :=
  if state_sequence = [] then "No states detected"
  else
    let dominant := (get_dominant_state state_sequence).getD ""
    "Primary intent: " ++ pyTitle (underscoreToSpace dominant) ++ "\n"
      ++ "Total operations: " ++ toString state_sequence.length ++ "\n"
      ++ "State transitions: " ++ toString (distinctKeys state_sequence).length

/-- `HiddenMarkovModel._map_tokens_to_observations`: pattern-match each token
into an observation category (or keep it as is). -/
def map_tokens_to_observations (tokens : List String) : List String :=
  tokens.map (fun token =>
    let tl := pyLower token
    if pyContains "os." tl then
      if ["listdir", "walk", "scandir", "mkdir", "remove"].any (fun x => pyContains x tl) then
        "FILE_OP_TOKEN"
      else if ["getpid", "getcwd", "getenv"].any (fun x => pyContains x tl) then
        "SYSTEM_INFO_TOKEN"
      else if ["path.join", "path.exists", "path.dirname"].any (fun x => pyContains x tl) then
        "PATH_TOKEN"
      else token
    else token)

end PyHMM

/-- A Python value in the dict returned by `predict_intent`. -/
inductive PVal where
  | pstr (s : String)
  | plist (l : List String)
  | pnone
deriving DecidableEq

namespace PyHMM

/-- `HiddenMarkovModel.predict_intent`: the returned dict, as an ordered
key/value list. On empty input it carries only `states` and `summary`;
otherwise `states`, `summary`, `tokens` and `dominant_state`. -/
def predict_intent (h : PyHMM) (tokens : List String) : List (String × PVal) :=
  if tokens = [] then
    [("states", PVal.plist []), ("summary", PVal.pstr "No code tokens found")]
  else
    let observations := map_tokens_to_observations tokens
    let state_sequence := h.viterbi observations
    let summary := generate_state_summary state_sequence
    [("states", PVal.plist state_sequence),
     ("summary", PVal.pstr summary),
     ("tokens", PVal.plist tokens),
     ("dominant_state",
       match get_dominant_state state_sequence with
       | some s => PVal.pstr s
       | none => PVal.pnone)]

end PyHMM

/-- `HiddenMarkovModel._default_hidden_states`. -/
def default_hidden_states : List String :=
  ["FILE_OPERATION", "PROCESS_MANAGEMENT", "SYSTEM_INFO", "PATH_MANIPULATION",
   "ERROR_HANDLING", "DATA_PROCESSING", "INITIALIZATION"]

/-- The unnormalized default transition matrix: `0.05` everywhere, `0.4` on
the diagonal, then the two pattern entries `INITIALIZATION→FILE_OPERATION =
0.3` and `FILE_OPERATION→ERROR_HANDLING = 0.15` (assigned in that order,
guarded by membership of the state names, as in
`_default_transition_matrix`). -/
def default_transition_raw (hs : List String) (i j : ℕ) : ℚ :=
  let v0 : ℚ := if i = j then 4 / 10 else 5 / 100
  let v1 : ℚ :=
    if "INITIALIZATION" ∈ hs ∧ "FILE_OPERATION" ∈ hs ∧
        i = hs.indexOf "INITIALIZATION" ∧ j = hs.indexOf "FILE_OPERATION" then 3 / 10
    else v0
  if "FILE_OPERATION" ∈ hs ∧ "ERROR_HANDLING" ∈ hs ∧
      i = hs.indexOf "FILE_OPERATION" ∧ j = hs.indexOf "ERROR_HANDLING" then 15 / 100
  else v1

/-- Row-normalized default transition matrix (`trans / trans.sum(dim=1)`). -/
def default_transition (hs : List String) (i j : ℕ) : ℚ :=
  default_transition_raw hs i j
    / ((List.range hs.length).map (default_transition_raw hs i)).sum

/-- The classifier exactly as `core/codeExplainer.py` constructs it:
`HiddenMarkovModel(observable_states=None, hidden_states=None,
transition_matrix=None, emission_matrix=None)` — empty observable
vocabulary, default hidden states, default transition matrix, no emission
matrix, uniform initial distribution. -/
def pipelineHMM : PyHMM :=
  { observable_states := []
    hidden_states := default_hidden_states
    transition := default_transition default_hidden_states
    emission := none
    initial :=
      List.replicate default_hidden_states.length
        (1 / (default_hidden_states.length : ℚ)) }

/-! ### `src/core/file_manager.py` — `FileManager`

The extractor works on the Python `ast` of the source. The AST node kinds
that `FileManager` dispatches on are embedded below; `ast.parse` itself is
the CPython parser (external to the repository), so a `FileManager` is
constructed from a parse result (`Except` models the
`try/except SyntaxError`). Expression-context markers (`Load`/`Store`),
`orelse`/`keywords` and the inner structure of `with` items and `except`
handlers carry no information used by any claim and are abstracted to the
same node shapes the dispatcher distinguishes. -/

/-- `ast.alias`: a name with an optional `as` alias. -/
structure PyAlias where
  name : String
  asname : Option String
deriving DecidableEq

/-- Python expression nodes distinguished by `FileManager`. -/
inductive PyExpr where
  | ename (id : String) (lineno : ℕ)
  | eattribute (value : PyExpr) (attr : String) (lineno : ℕ)
  | econstant (value : String) (lineno : ℕ)
  | ecall (func : PyExpr) (args : List PyExpr) (lineno : ℕ)

/-- Python statement nodes distinguished by `FileManager`. -/
inductive PyStmt where
  | simport (names : List PyAlias) (lineno : ℕ)
  | simportFrom (module : Option String) (names : List PyAlias) (lineno : ℕ)
  | sassign (targets : List PyExpr) (value : PyExpr) (lineno : ℕ)
  | sfor (target : PyExpr) (iter : PyExpr) (body : List PyStmt) (lineno : ℕ)
  | swhile (test : PyExpr) (body : List PyStmt) (lineno : ℕ)
  | sif (test : PyExpr) (body : List PyStmt) (orelse : List PyStmt) (lineno : ℕ)
  | swith (items : List PyExpr) (body : List PyStmt) (lineno : ℕ)
  | stry (body : List PyStmt) (handlers : List PyStmt) (lineno : ℕ)
  | sexpr (value : PyExpr) (lineno : ℕ)

/-- A node of the AST, as `ast.walk` sees it. -/
inductive PyNode where
  | nmodule (body : List PyStmt)
  | nstmt (s : PyStmt)
  | nexpr (e : PyExpr)
  | nalias (a : PyAlias)

/-- `ast.iter_child_nodes`, in field order. -/
def PyNode.children : PyNode → List PyNode
  | .nmodule body => body.map PyNode.nstmt
  | .nstmt (.simport names _) => names.map PyNode.nalias
  | .nstmt (.simportFrom _ names _) => names.map PyNode.nalias
  | .nstmt (.sassign targets value _) =>
      targets.map PyNode.nexpr ++ [PyNode.nexpr value]
  | .nstmt (.sfor target iter body _) =>
      [PyNode.nexpr target, PyNode.nexpr iter] ++ body.map PyNode.nstmt
  | .nstmt (.swhile test body _) => PyNode.nexpr test :: body.map PyNode.nstmt
  | .nstmt (.sif test body orelse _) =>
      PyNode.nexpr test :: (body.map PyNode.nstmt ++ orelse.map PyNode.nstmt)
  | .nstmt (.swith items body _) => items.map PyNode.nexpr ++ body.map PyNode.nstmt
  | .nstmt (.stry body handlers _) =>
      body.map PyNode.nstmt ++ handlers.map PyNode.nstmt
  | .nstmt (.sexpr value _) => [PyNode.nexpr value]
  | .nexpr (.ename _ _) => []
  | .nexpr (.eattribute value _ _) => [PyNode.nexpr value]
  | .nexpr (.econstant _ _) => []
  | .nexpr (.ecall func args _) => PyNode.nexpr func :: args.map PyNode.nexpr
  | .nalias _ => []

/-- Breadth-first traversal with explicit fuel (`ast.walk` is a BFS over a
`deque`; the fuel is an upper bound on the number of nodes, so it is never
exhausted on the trees actually traversed). -/
def bfsAux : ℕ → List PyNode → List PyNode
  | 0, _ => []
  | _ + 1, [] => []
  | fuel + 1, n :: rest => n :: bfsAux fuel (rest ++ n.children)

mutual

/-- Number of AST nodes in an expression (itself plus descendants). -/
def PyExpr.count : PyExpr → ℕ
  | .ename _ _ => 1
  | .econstant _ _ => 1
  | .eattribute v _ _ => 1 + PyExpr.count v
  | .ecall f args _ => 1 + PyExpr.count f + PyExpr.countList args

/-- Total node count of a list of expressions. -/
def PyExpr.countList : List PyExpr → ℕ
  | [] => 0
  | e :: es => PyExpr.count e + PyExpr.countList es

end

mutual

/-- Number of AST nodes in a statement (itself plus descendants,
aliases included). -/
def PyStmt.count : PyStmt → ℕ
  | .simport names _ => 1 + names.length
  | .simportFrom _ names _ => 1 + names.length
  | .sassign targets value _ => 1 + PyExpr.countList targets + PyExpr.count value
  | .sfor target iter body _ =>
      1 + PyExpr.count target + PyExpr.count iter + PyStmt.countList body
  | .swhile test body _ => 1 + PyExpr.count test + PyStmt.countList body
  | .sif test body orelse _ =>
      1 + PyExpr.count test + PyStmt.countList body + PyStmt.countList orelse
  | .swith items body _ => 1 + PyExpr.countList items + PyStmt.countList body
  | .stry body handlers _ => 1 + PyStmt.countList body + PyStmt.countList handlers
  | .sexpr value _ => 1 + PyExpr.count value

/-- Total node count of a list of statements. -/
def PyStmt.countList : List PyStmt → ℕ
  | [] => 0
  | s :: ss => PyStmt.count s + PyStmt.countList ss

end

/-- Number of AST nodes reachable from a node. -/
def PyNode.count : PyNode → ℕ
  | .nmodule body => 1 + PyStmt.countList body
  | .nstmt s => s.count
  | .nexpr e => e.count
  | .nalias _ => 1

/-- `ast.walk(node)`: BFS from `node`; the node count is enough fuel to
exhaust the queue. -/
def pyWalk (n : PyNode) : List PyNode := bfsAux n.count [n]

/-- The `FileManager` object after `__init__`: the source text and the
parse tree (`None` when `ast.parse` raised `SyntaxError`). -/
structure FileManager where
  file : String
  tree : Option (List PyStmt)

/-- `FileManager.__init__`: the `try/except SyntaxError` around `ast.parse`.
Returns the constructed object together with the printed diagnostics; a
parse failure is caught, reported, and leaves `tree = None`. -/
def FileManager.construct (file : String) (parsed : Except String (List PyStmt)) :
    FileManager × List String :=
  match parsed with
  | .ok t => ({ file := file, tree := some t }, [])
  | .error e => ({ file := file, tree := none }, ["Syntax error in file: " ++ e])

/-- An import fact as returned by `FileManager.get_imports` (the dicts with
`type` `'import'` or `'from_import'`; no line number is recorded). -/
inductive ImportFact where
  | imp (module : String) (al : Option String)
  | fromImp (module : String) (name : String) (al : Option String)
deriving DecidableEq

/-- `FileManager.get_imports`. -/
def FileManager.get_imports (fm : FileManager) : List ImportFact :=
  match fm.tree with
  | none => []
  | some t =>
    (pyWalk (PyNode.nmodule t)).flatMap (fun n =>
      match n with
      | .nstmt (.simport names _) =>
          names.map (fun a => ImportFact.imp a.name a.asname)
      | .nstmt (.simportFrom module names _) =>
          names.map (fun a => ImportFact.fromImp (module.getD "") a.name a.asname)
      | _ => [])

/-- A call fact as returned by `FileManager.get_function_calls` (the dicts
with `type` `'simple'` or `'attribute'`). -/
inductive CallInfo where
  | simple (name full_name : String) (args : List String) (lineno : ℕ)
  | attr (obj method full_name : String) (args : List String) (lineno : ℕ)
deriving DecidableEq

/-- The `lineno` entry of a call fact. -/
def CallInfo.lineno : CallInfo → ℕ
  | .simple _ _ _ l => l
  | .attr _ _ _ _ l => l

/-- The `full_name` entry of a call fact. -/
def CallInfo.full_name : CallInfo → String
  | .simple _ fn _ _ => fn
  | .attr _ _ fn _ _ => fn

/-- `FileManager._get_obj_name`. -/
def FileManager.get_obj_name : PyExpr → String
  | .ename id _ => id
  | .eattribute value attr _ => FileManager.get_obj_name value ++ "." ++ attr
  | _ => "unknown"

/-- `FileManager._extract_args`: `str(value)` of constants, identifiers,
`"complex_arg"` otherwise. -/
def FileManager.extract_args (args : List PyExpr) : List String :=
  args.map (fun a =>
    match a with
    | .econstant v _ => v
    | .ename id _ => id
    | _ => "complex_arg")

/-- `FileManager._extract_call_info`: `None` for call shapes other than
`Name(...)` and `Attribute(...)`. -/
def FileManager.extract_call_info (func : PyExpr) (args : List PyExpr) (lineno : ℕ) :
    Option CallInfo :=
  match func with
  | .ename id _ =>
      some (CallInfo.simple id id (FileManager.extract_args args) lineno)
  | .eattribute value attr _ =>
      some (CallInfo.attr (FileManager.get_obj_name value) attr
        (FileManager.get_obj_name value ++ "." ++ attr)
        (FileManager.extract_args args) lineno)
  | _ => none

/-- `FileManager.get_function_calls`. -/
def FileManager.get_function_calls (fm : FileManager) : List CallInfo :=
  match fm.tree with
  | none => []
  | some t =>
    (pyWalk (PyNode.nmodule t)).filterMap (fun n =>
      match n with
      | .nexpr (.ecall func args lineno) =>
          FileManager.extract_call_info func args lineno
      | _ => none)

/-- A control-flow fact as returned by `FileManager.get_control_flow`. -/
inductive ControlFlowFact where
  | forLoop (lineno : ℕ) (target : String)
  | whileLoop (lineno : ℕ)
  | conditional (lineno : ℕ)
  | contextManager (lineno : ℕ)
  | errorHandling (lineno : ℕ)
deriving DecidableEq

/-- The `lineno` entry of a control-flow fact. -/
def ControlFlowFact.lineno : ControlFlowFact → ℕ
  | .forLoop l _ => l
  | .whileLoop l => l
  | .conditional l => l
  | .contextManager l => l
  | .errorHandling l => l

/-- The `type` entry of a control-flow fact. -/
def ControlFlowFact.typeStr : ControlFlowFact → String
  | .forLoop _ _ => "for_loop"
  | .whileLoop _ => "while_loop"
  | .conditional _ => "conditional"
  | .contextManager _ => "context_manager"
  | .errorHandling _ => "error_handling"

/-- `FileManager._get_target_name`. -/
def FileManager.get_target_name : PyExpr → String
  | .ename id _ => id
  | _ => "unknown"

/-- `FileManager.get_control_flow`. -/
def FileManager.get_control_flow (fm : FileManager) : List ControlFlowFact :=
  match fm.tree with
  | none => []
  | some t =>
    (pyWalk (PyNode.nmodule t)).filterMap (fun n =>
      match n with
      | .nstmt (.sfor target _ _ lineno) =>
          some (ControlFlowFact.forLoop lineno (FileManager.get_target_name target))
      | .nstmt (.swhile _ _ lineno) => some (ControlFlowFact.whileLoop lineno)
      | .nstmt (.sif _ _ _ lineno) => some (ControlFlowFact.conditional lineno)
      | .nstmt (.swith _ _ lineno) => some (ControlFlowFact.contextManager lineno)
      | .nstmt (.stry _ _ lineno) => some (ControlFlowFact.errorHandling lineno)
      | _ => none)

/-- An assignment fact as returned by `FileManager.get_assignments`. -/
structure AssignFact where
  variable0 : String
  lineno : ℕ
deriving DecidableEq

/-- `FileManager.get_assignments`: one fact per `Name` target of an
`Assign` node. -/
def FileManager.get_assignments (fm : FileManager) : List AssignFact :=
  match fm.tree with
  | none => []
  | some t =>
    (pyWalk (PyNode.nmodule t)).flatMap (fun n =>
      match n with
      | .nstmt (.sassign targets _ lineno) =>
          targets.filterMap (fun tgt =>
            match tgt with
            | .ename id _ => some ⟨id, lineno⟩
            | _ => none)
      | _ => [])

/-- `FileManager.tokenize_for_hmm`. -/
def FileManager.tokenize_for_hmm (fm : FileManager) : List String :=
  (fm.get_imports.flatMap (fun i =>
      match i with
      | .imp m _ => ["IMPORT", m]
      | .fromImp m _ _ => ["IMPORT", m]))
    ++ fm.get_function_calls.flatMap (fun c => ["CALL", c.full_name])
    ++ fm.get_control_flow.map (fun s => pyUpper s.typeStr)
    ++ fm.get_assignments.map (fun _ => "ASSIGN")

/-- The line numbers of all extracted facts in discovery order (summary
order: imports, calls, control flow, assignments). `get_imports` itself
records no line number, so an import fact's line is that of its `Import`
statement node. -/
def FileManager.fact_line_numbers (fm : FileManager) : List ℕ :=
  (match fm.tree with
    | none => []
    | some t =>
      (pyWalk (PyNode.nmodule t)).flatMap (fun n =>
        match n with
        | .nstmt (.simport names lineno) => names.map (fun _ => lineno)
        | .nstmt (.simportFrom _ names lineno) => names.map (fun _ => lineno)
        | _ => []))
    ++ fm.get_function_calls.map CallInfo.lineno
    ++ fm.get_control_flow.map ControlFlowFact.lineno
    ++ fm.get_assignments.map AssignFact.lineno

/-- Stable ascending insertion into a sorted list of naturals. -/
def insertNat (x : ℕ) : List ℕ → List ℕ
  | [] => [x]
  | y :: ys => if x ≤ y then x :: y :: ys else y :: insertNat x ys

/-- Stable ascending insertion sort on naturals. -/
def sortNats : List ℕ → List ℕ
  | [] => []
  | x :: xs => insertNat x (sortNats xs)

/-! ### `src/embedder.py` — `FunctionEmbedder`

`_cosine_similarity` is embedded over `ℝ` per stored row: numpy's
`vec / norm(vec)` with a zero norm produces non-numeric entries
(`nan`/`inf` from the IEEE division), modelled as `none`; only a division
by a nonzero norm produces a numeric vector. `find_similar_functions` is
embedded over `ℚ` similarity scores (the sentence-transformer encoder that
produces the vectors is an external model, so the scores are a parameter);
`np.argsort` is modelled as the index-stable ascending argsort. -/

/-- `np.dot` of two vectors. -/
def dotList (a b : List ℝ) : ℝ := (List.zipWith (· * ·) a b).sum

/-- `np.linalg.norm` (2-norm). -/
noncomputable def npNorm (v : List ℝ) : ℝ :=
  Real.sqrt ((v.map (fun x => x * x)).sum)

open Classical in
/-- Elementwise `vec / norm(vec)`: `none` models the non-numeric vector
numpy produces when the norm is zero. -/
noncomputable def normalizeVec (v : List ℝ) : Option (List ℝ) :=
  if npNorm v = 0 then none else some (v.map (fun x => x / npNorm v))

/-- `FunctionEmbedder._cosine_similarity` for one stored row `vec2`:
normalize both vectors, then `np.dot(vec2_norm, vec1_norm)`. -/
noncomputable def cosine_similarity (vec1 vec2 : List ℝ) : Option ℝ :=
  match normalizeVec vec1, normalizeVec vec2 with
  | some u, some w => some (dotList w u)
  | _, _ => none

/-- One entry of the result list of `find_similar_functions`. -/
structure SimResult where
  function : String
  similarity : ℚ
  rank : ℕ
deriving DecidableEq

/-- Stable insertion into an ascending index list: index `i` goes in front
of the first index whose similarity is `≥` its own. -/
def insertAscIdx (sims : List ℚ) (i : ℕ) : List ℕ → List ℕ
  | [] => [i]
  | j :: js =>
    if sims.getD i 0 ≤ sims.getD j 0 then i :: j :: js else j :: insertAscIdx sims i js

/-- Stable ascending insertion argsort of an index list. -/
def argsortStable (sims : List ℚ) : List ℕ → List ℕ
  | [] => []
  | i :: is => insertAscIdx sims i (argsortStable sims is)

/-- `np.argsort(similarities)`: indices in ascending order of similarity
(modelled index-stable: ties keep ascending index order). -/
def npArgsort (sims : List ℚ) : List ℕ := argsortStable sims (List.range sims.length)

/-- Python slice `a[-k:]`: the last `k` elements — the whole list when
`k = 0` (`a[-0:]` is `a[0:]`) or when `k ≥ len(a)`. -/
def pySliceLast {α : Type} (l : List α) (k : ℕ) : List α :=
  if k = 0 then l else l.drop (l.length - k)

/-- `np.argsort(similarities)[-top_k:][::-1]`. -/
def topIndices (sims : List ℚ) (top_k : ℕ) : List ℕ :=
  (pySliceLast (npArgsort sims) top_k).reverse

/-- The result-building loop: `rank` is `len(results) + 1` at append time. -/
def buildResults (db : List String) (sims : List ℚ) : List ℕ → ℕ → List SimResult
  | [], _ => []
  | idx :: rest, cnt =>
    ⟨db.getD idx "", sims.getD idx 0, cnt + 1⟩ :: buildResults db sims rest (cnt + 1)

/-- `FunctionEmbedder.find_similar_functions` given the database records
(by name) and the cosine similarity of the query to each: empty-database
guard, top-k index selection, result building. -/
def find_similar_functions (db : List String) (sims : List ℚ) (top_k : ℕ) :
    List SimResult :=
  if db = [] then [] else buildResults db sims (topIndices sims top_k) 0

/-! ### `src/observer.py` — co-occurrence learning and suggestions

`function_cooccurrence` (a `defaultdict(Counter)`) is embedded as an
insertion-ordered association list of insertion-ordered rows, which is the
iteration order Python dicts and `Counter.most_common` (a stable descending
sort) observe. -/

/-- `COOCCURRENCE_LEARNING_RATE = 0.1`. -/
def COOCCURRENCE_LEARNING_RATE : ℚ := 1 / 10

/-- `MIN_SUGGESTION_SCORE = 0.01`. -/
def MIN_SUGGESTION_SCORE : ℚ := 1 / 100

/-- The co-occurrence table: function → (next function → weight). -/
def CoTable : Type := List (String × List (String × ℚ))

/-- Key lookup in an insertion-ordered association list. -/
def alookup {β : Type} : List (String × β) → String → Option β
  | [], _ => none
  | (k, v) :: rest, a => if k = a then some v else alookup rest a

/-- `Counter[key] += lr`: bump an existing key or append a fresh one. -/
def bumpEntry (key : String) (lr : ℚ) : List (String × ℚ) → List (String × ℚ)
  | [] => [(key, lr)]
  | (k, v) :: rest =>
    if k = key then (k, v + lr) :: rest else (k, v) :: bumpEntry key lr rest

/-- `function_cooccurrence[prev][next] += lr` on the `defaultdict`: bump an
existing row or append a fresh one. -/
def updateRow (f nf : String) (lr : ℚ) : CoTable → CoTable
  | [] => [(f, [(nf, lr)])]
  | (k, row) :: rest =>
    if k = f then (k, bumpEntry nf lr row) :: rest else (k, row) :: updateRow f nf lr rest

/-- `update_cooccurrence(prev_func, next_func)` (at the default learning
rate, the only rate the repository uses): no-op on empty names. -/
def update_cooccurrence (prev_func next_func : String) (tbl : CoTable) : CoTable :=
  if prev_func = "" ∨ next_func = "" then tbl
  else updateRow prev_func next_func COOCCURRENCE_LEARNING_RATE tbl

/-- Stable insertion into a descending-count list: the new entry goes in
front of the first entry with count `≤` its own (so earlier-inserted equal
counts stay in front — the stable descending order of
`Counter.most_common`). -/
def insertDescCount (x : String × ℚ) : List (String × ℚ) → List (String × ℚ)
  | [] => [x]
  | y :: ys => if y.2 ≤ x.2 then x :: y :: ys else y :: insertDescCount x ys

/-- Stable descending sort by count. -/
def sortDescCount : List (String × ℚ) → List (String × ℚ)
  | [] => []
  | x :: xs => insertDescCount x (sortDescCount xs)

/-- `Counter.most_common(k)`: the `k` heaviest entries, stably ordered. -/
def mostCommon (row : List (String × ℚ)) (k : ℕ) : List (String × ℚ) :=
  (sortDescCount row).take k

/-- One suggestion dict `{'function': ..., 'score': ...}`. -/
structure Suggestion where
  function : String
  score : ℚ
deriving DecidableEq

/-- `get_cooccurrence_suggestions(prev_func, top_k)`. -/
def get_cooccurrence_suggestions (tbl : CoTable) (prev_func : String) (top_k : ℕ) :
    List Suggestion :=
  match alookup tbl prev_func with
  | none => []
  | some counter =>
    let total := (counter.map Prod.snd).sum + 1 / 1000000000
    (mostCommon counter top_k).map
      (fun fc => ⟨fc.1, max (fc.2 / total) MIN_SUGGESTION_SCORE⟩)

/-- `token.split("FUNC:", 1)[1]` guarded by `token.startswith("FUNC:")`. -/
def funcPayload (t : String) : Option String :=
  if "FUNC:".data.isPrefixOf t.data then some (String.mk (t.data.drop 5)) else none

/-- The reversed scan for the last `FUNC:` token in `predict_next_functions`. -/
def findLastFunc (recent_tokens : List String) : Option String :=
  recent_tokens.reverse.findSome? funcPayload

/-- `predict_next_functions(recent_tokens, top_k)`: co-occurrence
suggestions for the last seen function, with the fixed fallback list when
they are empty. -/
def predict_next_functions (tbl : CoTable) (recent_tokens : List String) (top_k : ℕ) :
    List Suggestion :=
  let suggestions :=
    match findLastFunc recent_tokens with
    | some last_func => get_cooccurrence_suggestions tbl last_func top_k
    | none => []
  if suggestions = [] then
    [⟨"os.listdir", 1 / 5⟩, ⟨"os.path.join", 3 / 20⟩]
  else suggestions

/-- The function names of a token list
(`[t.split("FUNC:",1)[1] for t in obs if t.startswith("FUNC:")]`). -/
def extractFuncs (obs : List String) : List String := obs.filterMap funcPayload

/-- `learn_from_observed_lines` with `WINDOW = 3`: for each line, for each
of its functions, update the co-occurrence pair with every function of the
next (up to) three lines. (The `if not funcs: continue` branch is the
identity fold over `[]`.) -/
def learn_from_observed_lines (tbl : CoTable) : List (List String) → CoTable
  | [] => tbl
  | obs :: rest =>
    learn_from_observed_lines
      ((extractFuncs obs).foldl (fun t f =>
        (rest.take 3).foldl (fun t2 line =>
          (extractFuncs line).foldl (fun t3 nf => update_cooccurrence f nf t3) t2) t) tbl)
      rest

/-- The accumulated weight of the ordered pair `a → b` in the table. -/
def getWeight (tbl : CoTable) (a b : String) : ℚ :=
  match alookup tbl a with
  | none => 0
  | some row =>
    match alookup row b with
    | none => 0
    | some v => v

/-- Fold a list of pair updates over the table (the order in which
`learn_from_observed_lines` performs its `update_cooccurrence` calls). -/
def applyUpdates (tbl : CoTable) (ps : List (String × String)) : CoTable :=
  ps.foldl (fun t p => update_cooccurrence p.1 p.2 t) tbl

/-- The pair updates one line contributes: its functions crossed with the
functions of the lookahead lines, in loop order. -/
def linePairs (funcs : List String) (lookahead : List (List String)) :
    List (String × String) :=
  funcs.flatMap (fun f =>
    lookahead.flatMap (fun line => (extractFuncs line).map (fun nf => (f, nf))))

/-- All pair updates of `learn_from_observed_lines`, in call order. -/
def pairList : List (List String) → List (String × String)
  | [] => []
  | obs :: rest => linePairs (extractFuncs obs) (rest.take 3) ++ pairList rest

/-! ### `src/code_explainer_heavy.py` — `CodeExplainer._analyze_complexity` -/

/-- The scanning loop of `str.count` (fueled; every step consumes at least
one character, so the text length is enough fuel). -/
def countOccAux (pat : List Char) : ℕ → List Char → ℕ
  | 0, _ => 0
  | _ + 1, [] => 0
  | fuel + 1, c :: rest =>
    if pat.isPrefixOf (c :: rest) then
      1 + countOccAux pat fuel (rest.drop (pat.length - 1))
    else
      countOccAux pat fuel rest

/-- Non-overlapping substring count (`str.count`): scan left to right,
skipping the pattern's length on each hit. -/
def countOcc (pat l : List Char) : ℕ := countOccAux pat l.length l

/-- `code.count(sub)`. -/
def pyCount (code sub : String) : ℕ := countOcc sub.data code.data

/-- `str.index(sub)`: position of the first occurrence (callers guard
existence with `in`). -/
def firstOccIdx (pat : List Char) : List Char → ℕ
  | [] => 0
  | c :: rest => if pat.isPrefixOf (c :: rest) then 0 else firstOccIdx pat rest + 1

/-- A regex `\w` character (ASCII). -/
def isWordChar (c : Char) : Bool := c.isAlphanum || c = '_'

/-- A regex `\s` character. -/
def isPySpace (c : Char) : Bool :=
  c = ' ' || c = '\t' || c = '\n' || c = '\r' || c = '\x0b' || c = '\x0c'

/-- Try to match `def\s+(\w+)` at the head of the text; on success return
the captured group and the rest of the text after the match. -/
def matchDefAt (l : List Char) : Option (List Char × List Char) :=
  match l with
  | 'd' :: 'e' :: 'f' :: rest =>
    let ws := rest.takeWhile isPySpace
    let rest2 := rest.dropWhile isPySpace
    let word := rest2.takeWhile isWordChar
    let rest3 := rest2.dropWhile isWordChar
    if ws ≠ [] ∧ word ≠ [] then some (word, rest3) else none
  | _ => none

/-- The scanning loop of `re.findall` (fueled; matched regions never grow,
so the text length is enough fuel). -/
def findallAux : ℕ → List Char → List (List Char)
  | 0, _ => []
  | _ + 1, [] => []
  | fuel + 1, c :: rest =>
    match matchDefAt (c :: rest) with
    | some (word, rest3) => word :: findallAux fuel rest3
    | none => findallAux fuel rest

/-- `re.findall(r'def\s+(\w+)', code)`. -/
def findallDefNames (l : List Char) : List (List Char) := findallAux l.length l

/-- The `has_recursion` test of `_analyze_complexity`: a `def` exists and
some regex-extracted defined name occurs (as a substring) in the source
from the first `'def '` occurrence on. -/
def hasRecursionFlag (code : String) : Bool :=
  if pyContains "def " code then
    (findallDefNames code.data).any
      (fun w => containsSub w (code.data.drop (firstOccIdx "def ".data code.data)))
  else
    false

/-- The `complexity` estimate string chosen by `_analyze_complexity`. -/
def complexityEstimate (code : String) : String :=
  if pyCount code "for " > 1 || pyCount code "while " > 1 then
    "O(n²) or higher - Nested iterations detected"
  else if pyContains "for " code || pyContains "while " code then
    "O(n) - Single loop iteration"
  else if hasRecursionFlag code then
    "Depends on recursion depth (possibly O(2^n) or O(n log n))"
  else
    "O(1) - Constant time operations"

/-- The `algorithms` pattern list of `_analyze_complexity`. -/
def detectedAlgorithms (code : String) : List String :=
  (if pyContains "sort" (pyLower code) then ["Sorting algorithm detected"] else [])
    ++ (if pyContains "search" (pyLower code) || pyContains "find" (pyLower code) then
          ["Search pattern detected"] else [])
    ++ (if hasRecursionFlag code then ["Recursive approach detected"] else [])
    ++ (if pyContains "enumerate" code || pyContains "range" code then
          ["Iteration pattern detected"] else [])

/-- `CodeExplainer._analyze_complexity`: the joined analysis text. -/
def analyze_complexity (code : String) : String :=
  let algorithms := detectedAlgorithms code
  let analysis :=
    (if algorithms ≠ [] then
        "Detected Patterns:" :: algorithms.map (fun a => "  • " ++ a) ++ [""]
      else [])
      ++ ["Estimated Time Complexity: " ++ complexityEstimate code]
  String.intercalate "\n" analysis
/-! ### Concrete inputs used by the claims -/

/-- The source text of claim C4. -/
def sampleSource : String :=
  "import os\nfiles = os.listdir('.')\nfor f in files:\n    print(f)\n"

/-- The CPython `ast.parse` result of `sampleSource` (module body, with the
line numbers `ast` attaches to every node). -/
def sampleTree : List PyStmt :=
  [PyStmt.simport [⟨"os", none⟩] 1,
   PyStmt.sassign [PyExpr.ename "files" 2]
     (PyExpr.ecall (PyExpr.eattribute (PyExpr.ename "os" 2) "listdir" 2)
       [PyExpr.econstant "." 2] 2) 2,
   PyStmt.sfor (PyExpr.ename "f" 3) (PyExpr.ename "files" 3)
     [PyStmt.sexpr (PyExpr.ecall (PyExpr.ename "print" 4) [PyExpr.ename "f" 4] 4) 4] 3]

/-- The `FileManager` built on `sampleSource`. -/
def sampleFM : FileManager :=
  (FileManager.construct sampleSource (Except.ok sampleTree)).1

/-- The weight of `b` in a single co-occurrence row (`0` when absent);
verification helper for reasoning about `getWeight`. -/
def rowW (row : List (String × ℚ)) (b : String) : ℚ :=
  match alookup row b with
  | none => 0
  | some v => v

/-- A two-state model (empty observable vocabulary, no emission matrix,
all-ones transition weights, all-ones initial column) on which the two
viterbi predecessors yield identical products. -/
def tieHMM : PyHMM :=
  { observable_states := []
    hidden_states := ["A", "B"]
    transition := fun _ _ => 1
    emission := none
    initial := [1, 1] }

/-! ### Helper lemmas -/

theorem listMax_mem : ∀ l : List ℚ, l ≠ [] → listMax l ∈ l := by
  intro l hl
  induction l with
  | nil => exact absurd rfl hl
  | cons x xs ih =>
    cases xs with
    | nil => simp [listMax]
    | cons y ys =>
      rcases max_choice x (listMax (y :: ys)) with h | h
      · simp [listMax, h]
      · have := ih (by simp)
        simp only [listMax, h]
        exact List.mem_cons_of_mem _ this

theorem le_listMax : ∀ l : List ℚ, ∀ x ∈ l, x ≤ listMax l := by
  intro l
  induction l with
  | nil => intro x hx; cases hx
  | cons a xs ih =>
    intro x hx
    cases xs with
    | nil =>
      rcases List.mem_singleton.mp hx with h
      simp [listMax, h]
    | cons y ys =>
      rcases List.mem_cons.mp hx with h | h
      · simp [listMax, h, le_max_left]
      · calc x ≤ listMax (y :: ys) := ih x h
          _ ≤ listMax (a :: y :: ys) := by simp [listMax, le_max_right]

theorem firstIdxOf_lt_length {m : ℚ} : ∀ {l : List ℚ}, m ∈ l → firstIdxOf m l < l.length := by
  intro l hm
  induction l with
  | nil => cases hm
  | cons x xs ih =>
    by_cases hx : x = m
    · simp [firstIdxOf, hx]
    · rcases List.mem_cons.mp hm with h | h
      · exact absurd h.symm hx
      · simpa [firstIdxOf, hx] using ih h

theorem getD_firstIdxOf {m : ℚ} : ∀ {l : List ℚ}, m ∈ l → l.getD (firstIdxOf m l) 0 = m := by
  intro l hm
  induction l with
  | nil => cases hm
  | cons x xs ih =>
    by_cases hx : x = m
    · simp [firstIdxOf, hx]
    · rcases List.mem_cons.mp hm with h | h
      · exact absurd h.symm hx
      · simpa [firstIdxOf, hx] using ih h

theorem getD_lt_firstIdxOf {m : ℚ} :
    ∀ {l : List ℚ}, ∀ p < firstIdxOf m l, l.getD p 0 ≠ m := by
  intro l
  induction l with
  | nil => intro p hp; simp [firstIdxOf] at hp
  | cons x xs ih =>
    intro p hp
    by_cases hx : x = m
    · simp [firstIdxOf, hx] at hp
    · cases p with
      | zero => simpa using hx
      | succ q =>
        simp only [firstIdxOf, hx, if_false] at hp
        have hq : q < firstIdxOf m xs := by omega
        simpa using ih q hq

theorem getD_le_listMax {l : List ℚ} {p : ℕ} (hp : p < l.length) :
    l.getD p 0 ≤ listMax l := by
  have hmem : l.getD p 0 ∈ l := by
    rw [List.getD_eq_getElem l 0 hp]
    exact List.getElem_mem hp
  exact le_listMax l _ hmem

theorem exists_getD_eq_listMax {l : List ℚ} (hl : l ≠ []) :
    ∃ p < l.length, l.getD p 0 = listMax l := by
  obtain ⟨p, hp, hval⟩ := List.mem_iff_getElem.mp (listMax_mem l hl)
  exact ⟨p, hp, by rw [List.getD_eq_getElem l 0 hp]; exact hval⟩

theorem listArgmax_lt_length {l : List ℚ} (hl : l ≠ []) : listArgmax l < l.length :=
  firstIdxOf_lt_length (listMax_mem l hl)

theorem getD_listArgmax {l : List ℚ} (hl : l ≠ []) :
    l.getD (listArgmax l) 0 = listMax l :=
  getD_firstIdxOf (listMax_mem l hl)

theorem getD_lt_listArgmax {l : List ℚ} {p : ℕ} (hp : p < listArgmax l) :
    l.getD p 0 ≠ listMax l :=
  getD_lt_firstIdxOf p hp

/-! ### Claim theorems -/

/-- C3: for every source text that fails to parse, `FileManager`
construction succeeds (the `SyntaxError` is caught), a diagnostic is
printed, and `get_imports`, `get_function_calls`, `get_control_flow`,
`get_assignments` and `tokenize_for_hmm` all return empty lists. -/
theorem claim_C3_parse_failure_yields_empty_facts (file err : String) :
    (FileManager.construct file (Except.error err)).2 ≠ [] ∧
    (FileManager.construct file (Except.error err)).1.get_imports = [] ∧
    (FileManager.construct file (Except.error err)).1.get_function_calls = [] ∧
    (FileManager.construct file (Except.error err)).1.get_control_flow = [] ∧
    (FileManager.construct file (Except.error err)).1.get_assignments = [] ∧
    (FileManager.construct file (Except.error err)).1.tokenize_for_hmm = [] := by
  refine ⟨by simp [FileManager.construct], ?_, ?_, ?_, ?_, ?_⟩ <;>
    simp [FileManager.construct, FileManager.get_imports,
      FileManager.get_function_calls, FileManager.get_control_flow,
      FileManager.get_assignments, FileManager.tokenize_for_hmm]

/-- C4: on the sample source, the extractor produces exactly one import fact
(module `os`), two call facts (`os.listdir` then `print`), one assignment
fact (`files`), one for-loop fact (target `f`); sorting the facts' line
numbers (discovery order on ties) gives `1, 2, 2, 3, 4`. -/
theorem claim_C4_sample_extraction :
    sampleFM.get_imports = [ImportFact.imp "os" none] ∧
    sampleFM.get_function_calls =
      [CallInfo.attr "os" "listdir" "os.listdir" ["."] 2,
       CallInfo.simple "print" "print" ["f"] 4] ∧
    sampleFM.get_assignments = [⟨"files", 2⟩] ∧
    sampleFM.get_control_flow = [ControlFlowFact.forLoop 3 "f"] ∧
    sortNats sampleFM.fact_line_numbers = [1, 2, 2, 3, 4] := by
  refine ⟨?_, ?_, ?_, ?_, ?_⟩ <;> decide

/-- C9 counterexample: the loop-free source `def foo():\n    return 1\n`
defines a function that never calls itself, yet the complexity estimate is
the recursion-depth one, not `O(1)` as the claim requires — the
`has_recursion` test fires on any well-formed `def` because the defined
name occurs right after `def ` itself. -/
theorem claim_C9_counterexample :
    complexityEstimate "def foo():\n    return 1\n" =
        "Depends on recursion depth (possibly O(2^n) or O(n log n))" ∧
    complexityEstimate "def foo():\n    return 1\n" ≠
        "O(1) - Constant time operations" := by
  refine ⟨by decide, ?_⟩
  intro h
  have : ("Depends on recursion depth (possibly O(2^n) or O(n log n))" : String) =
      "O(1) - Constant time operations" := by
    rw [← h]; decide
  simp at this

/-- C9 (amended): the estimate is `O(n²) or higher` when the source has two
or more occurrences of the same loop keyword (`'for '` or `'while '`);
else `O(n)` when it has any loop keyword; else the recursion-depth estimate
when `'def '` occurs and some regex-extracted defined name occurs in the
source from the first `'def '` on (which holds for any well-formed
definition, since the name follows its own `def`); else `O(1)`. -/
theorem claim_C9_amended (code : String) :
    (pyCount code "for " > 1 ∨ pyCount code "while " > 1 →
      complexityEstimate code = "O(n²) or higher - Nested iterations detected") ∧
    (¬(pyCount code "for " > 1 ∨ pyCount code "while " > 1) →
      (pyContains "for " code = true ∨ pyContains "while " code = true) →
      complexityEstimate code = "O(n) - Single loop iteration") ∧
    (¬(pyCount code "for " > 1 ∨ pyCount code "while " > 1) →
      pyContains "for " code = false → pyContains "while " code = false →
      hasRecursionFlag code = true →
      complexityEstimate code =
        "Depends on recursion depth (possibly O(2^n) or O(n log n))") ∧
    (¬(pyCount code "for " > 1 ∨ pyCount code "while " > 1) →
      pyContains "for " code = false → pyContains "while " code = false →
      hasRecursionFlag code = false →
      complexityEstimate code = "O(1) - Constant time operations") := by
  refine ⟨?_, ?_, ?_, ?_⟩
  · intro h
    rcases h with h | h <;>
      simp [complexityEstimate, h]
  · intro hn hl
    push_neg at hn
    rcases hl with h | h <;>
      simp [complexityEstimate, h, Nat.not_lt.mpr hn.1, Nat.not_lt.mpr hn.2, Nat.lt_irrefl]
  · intro hn hf hw hr
    push_neg at hn
    simp [complexityEstimate, hf, hw, hr, Nat.not_lt.mpr hn.1, Nat.not_lt.mpr hn.2]
  · intro hn hf hw hr
    push_neg at hn
    simp [complexityEstimate, hf, hw, hr, Nat.not_lt.mpr hn.1, Nat.not_lt.mpr hn.2]

/-- Witness for C9 (amended), instantiating every branch on concrete
sources. -/
theorem claim_C9_amended_witness :
    complexityEstimate "for i in a:\n    for j in b:\n        pass" =
        "O(n²) or higher - Nested iterations detected" ∧
    complexityEstimate "for i in a:\n    pass" = "O(n) - Single loop iteration" ∧
    complexityEstimate "def foo():\n    return 1\n" =
        "Depends on recursion depth (possibly O(2^n) or O(n log n))" ∧
    complexityEstimate "x = 1" = "O(1) - Constant time operations" :=
  ⟨(claim_C9_amended "for i in a:\n    for j in b:\n        pass").1
      (Or.inl (by decide)),
   (claim_C9_amended "for i in a:\n    pass").2.1 (by decide) (Or.inl (by decide)),
   (claim_C9_amended "def foo():\n    return 1\n").2.2.1 (by decide) (by decide)
      (by decide) (by decide),
   (claim_C9_amended "x = 1").2.2.2 (by decide) (by decide) (by decide) (by decide)⟩

/-- Scaling both factors of a dot product by reciprocals of the norms:
`Σ (bᵢ/nb)·(aᵢ/na) = (Σ aᵢ·bᵢ) / (na·nb)` (a field identity, valid for any
`na`, `nb`). -/
theorem dotList_map_div (a b : List ℝ) (na nb : ℝ) :
    dotList (b.map (fun x => x / nb)) (a.map (fun x => x / na)) =
      dotList a b / (na * nb) := by
  induction a generalizing b with
  | nil => cases b <;> simp [dotList]
  | cons x xs ih =>
    cases b with
    | nil => simp [dotList]
    | cons y ys =>
      simp only [List.map_cons, dotList, List.zipWith_cons_cons, List.sum_cons]
      have ihs := ih ys
      simp only [dotList] at ihs
      rw [ihs]
      ring

/-- C2 counterexample: on a zero-norm query vector the code divides by the
zero norm, producing a non-numeric result (`none`), not the similarity `0`
the claim requires. -/
theorem claim_C2_counterexample :
    cosine_similarity [(0 : ℝ), 0] [1, 0] = none ∧
    cosine_similarity [(0 : ℝ), 0] [1, 0] ≠ some 0 := by
  have h0 : npNorm [(0 : ℝ), 0] = 0 := by simp [npNorm]
  have hn : normalizeVec [(0 : ℝ), 0] = none := by rw [normalizeVec, if_pos h0]
  have hmain : cosine_similarity [(0 : ℝ), 0] [1, 0] = none := by
    rcases h2 : normalizeVec [(1 : ℝ), 0] with _ | u <;>
      simp [cosine_similarity, hn, h2]
  exact ⟨hmain, by rw [hmain]; simp⟩

/-- C2 (amended): when both norms are nonzero the similarity is the cosine
`dot(a,b) / (‖a‖·‖b‖)`; when either norm is zero the computation divides by
zero and the result is non-numeric (`none`), never `0`. -/
theorem claim_C2_amended :
    (∀ a b : List ℝ, npNorm a ≠ 0 → npNorm b ≠ 0 →
      cosine_similarity a b = some (dotList a b / (npNorm a * npNorm b))) ∧
    (∀ a b : List ℝ, npNorm a = 0 ∨ npNorm b = 0 →
      cosine_similarity a b = none) := by
  constructor
  · intro a b ha hb
    have hna : normalizeVec a = some (a.map (fun x => x / npNorm a)) := by
      rw [normalizeVec, if_neg ha]
    have hnb : normalizeVec b = some (b.map (fun x => x / npNorm b)) := by
      rw [normalizeVec, if_neg hb]
    simp [cosine_similarity, hna, hnb, dotList_map_div]
  · intro a b hab
    rcases hab with h | h
    · have hna : normalizeVec a = none := by rw [normalizeVec, if_pos h]
      rcases h2 : normalizeVec b with _ | w <;>
        simp [cosine_similarity, hna, h2]
    · have hnb : normalizeVec b = none := by rw [normalizeVec, if_pos h]
      rcases h2 : normalizeVec a with _ | u <;>
        simp [cosine_similarity, hnb, h2]

/-- Witness for C2 (amended) on concrete unit vectors. -/
theorem claim_C2_amended_witness :
    npNorm [(1 : ℝ), 0] ≠ 0 ∧ npNorm [(0 : ℝ), 1] ≠ 0 ∧
    cosine_similarity [(1 : ℝ), 0] [0, 1] =
      some (dotList [(1 : ℝ), 0] [0, 1] / (npNorm [(1 : ℝ), 0] * npNorm [(0 : ℝ), 1])) := by
  have h1 : npNorm [(1 : ℝ), 0] = 1 := by
    simp [npNorm]
  have h2 : npNorm [(0 : ℝ), 1] = 1 := by
    simp [npNorm]
  have h1n : npNorm [(1 : ℝ), 0] ≠ 0 := by rw [h1]; exact one_ne_zero
  have h2n : npNorm [(0 : ℝ), 1] ≠ 0 := by rw [h2]; exact one_ne_zero
  exact ⟨h1n, h2n, claim_C2_amended.1 _ _ h1n h2n⟩

/-- C6: a suggestion query whose prior function has no co-occurrence row
returns the fixed fallback list `os.listdir (0.2), os.path.join (0.15)`;
and `predict_next_functions` never returns an empty list. -/
theorem claim_C6_fallback_suggestions :
    (∀ (tbl : CoTable) (recent : List String) (k : ℕ) (f : String),
      findLastFunc recent = some f → alookup tbl f = none →
      predict_next_functions tbl recent k =
        [⟨"os.listdir", 1 / 5⟩, ⟨"os.path.join", 3 / 20⟩]) ∧
    (∀ (tbl : CoTable) (recent : List String) (k : ℕ),
      predict_next_functions tbl recent k ≠ []) := by
  constructor
  · intro tbl recent k f hlast hnone
    simp [predict_next_functions, hlast, get_cooccurrence_suggestions, hnone]
  · intro tbl recent k
    rw [predict_next_functions]
    split
    · simp
    · next h => exact h

/-- Witness for C6: the never-observed prior `foo` on the empty table. -/
theorem claim_C6_fallback_suggestions_witness :
    findLastFunc ["FUNC:foo"] = some "foo" ∧
    predict_next_functions [] ["FUNC:foo"] 5 =
      [⟨"os.listdir", 1 / 5⟩, ⟨"os.path.join", 3 / 20⟩] :=
  ⟨by decide, claim_C6_fallback_suggestions.1 [] ["FUNC:foo"] 5 "foo" (by decide) rfl⟩

/-- C8 counterexample: on the empty token list `predict_intent` returns a
dict with only `states` and `summary` — the `dominant_state` field the
claim promises for every token list is absent. -/
theorem claim_C8_counterexample :
    (PyHMM.predict_intent pipelineHMM []).lookup "dominant_state" = none ∧
    "dominant_state" ∉ (PyHMM.predict_intent pipelineHMM []).map Prod.fst := by
  constructor <;> simp [PyHMM.predict_intent]

/-- C8 (amended): on every non-empty token list `predict_intent` returns a
dict with exactly the fields `states`, `summary`, `tokens`,
`dominant_state`; on the empty token list it returns without error a dict
with only `states` (the empty sequence) and `summary`
(`"No code tokens found"`). -/
theorem claim_C8_amended :
    (∀ (h : PyHMM) (tokens : List String), tokens ≠ [] →
      (PyHMM.predict_intent h tokens).map Prod.fst =
        ["states", "summary", "tokens", "dominant_state"]) ∧
    (∀ h : PyHMM,
      PyHMM.predict_intent h [] =
        [("states", PVal.plist []), ("summary", PVal.pstr "No code tokens found")]) := by
  constructor
  · intro h tokens ht
    simp [PyHMM.predict_intent, ht]
  · intro h
    simp [PyHMM.predict_intent]

/-- Witness for C8 (amended) on a concrete one-token input. -/
theorem claim_C8_amended_witness :
    (["os.getcwd"] : List String) ≠ [] ∧
    (PyHMM.predict_intent pipelineHMM ["os.getcwd"]).map Prod.fst =
      ["states", "summary", "tokens", "dominant_state"] :=
  ⟨by decide, claim_C8_amended.1 pipelineHMM ["os.getcwd"] (by decide)⟩

/-- The pipeline classifier maps every observation to no index: its
observable vocabulary is empty. -/
theorem pipeline_obs_index_none (o : String) :
    PyHMM.get_observation_index pipelineHMM o = none := by
  simp [PyHMM.get_observation_index, pipelineHMM]

/-- With no emission matrix, the emission distribution is the rule-based
uniform vector whatever the observation index is. -/
theorem pipeline_emission_const (oIdx : Option ℕ) :
    PyHMM.get_emission_probs pipelineHMM oIdx =
      PyHMM.rule_based_emission pipelineHMM := by
  rcases oIdx with _ | i <;> simp [PyHMM.get_emission_probs, pipelineHMM]

/-- The pipeline forward-pass step does not depend on the observation. -/
theorem pipeline_step_const (v : List ℚ) (o o' : String) :
    PyHMM.viterbiStep pipelineHMM v o = PyHMM.viterbiStep pipelineHMM v o' := by
  simp [PyHMM.viterbiStep, pipeline_obs_index_none, pipeline_emission_const]

/-- The pipeline forward pass depends only on the number of observations. -/
theorem pipeline_vgo_length_only :
    ∀ (l1 l2 : List String) (c : List ℚ × List ℕ), l1.length = l2.length →
      PyHMM.vgo pipelineHMM c l1 = PyHMM.vgo pipelineHMM c l2 := by
  intro l1
  induction l1 with
  | nil =>
    intro l2 c hl
    cases l2 with
    | nil => rfl
    | cons o l2' => simp at hl
  | cons o l1' ih =>
    intro l2 c hl
    cases l2 with
    | nil => simp at hl
    | cons o' l2' =>
      simp only [List.length_cons, Nat.add_right_cancel_iff] at hl
      simp only [PyHMM.vgo]
      rw [pipeline_step_const c.1 o o', ih l2' _ hl]

/-- The first pipeline viterbi column is the initial distribution, whatever
the first observation is. -/
theorem pipeline_first_col (o : String) :
    PyHMM.viterbiFirstCol pipelineHMM o = pipelineHMM.initial := by
  rw [PyHMM.viterbiFirstCol, pipeline_obs_index_none]

/-- The pipeline decode depends only on the observation count. -/
theorem pipeline_viterbi_length_only (obs1 obs2 : List String)
    (hl : obs1.length = obs2.length) :
    PyHMM.viterbi pipelineHMM obs1 = PyHMM.viterbi pipelineHMM obs2 := by
  cases obs1 with
  | nil =>
    cases obs2 with
    | nil => rfl
    | cons o l => simp at hl
  | cons o l =>
    cases obs2 with
    | nil => simp at hl
    | cons o' l' =>
      simp only [List.length_cons, Nat.add_right_cancel_iff] at hl
      rw [PyHMM.viterbi, PyHMM.viterbi, PyHMM.viterbiCols, PyHMM.viterbiCols,
        pipeline_first_col, pipeline_first_col,
        pipeline_vgo_length_only l l' _ hl]

/-- C10: the classifier as the pipeline constructs it decodes any two token
sequences of equal length to the same hidden-state path — the decode never
depends on the tokens' content. -/
theorem claim_C10_content_independence (t1 t2 : List String)
    (hl : t1.length = t2.length) :
    (PyHMM.predict_intent pipelineHMM t1).lookup "states" =
      (PyHMM.predict_intent pipelineHMM t2).lookup "states" := by
  cases t1 with
  | nil =>
    cases t2 with
    | nil => rfl
    | cons y ys => simp at hl
  | cons x xs =>
    cases t2 with
    | nil => simp at hl
    | cons y ys =>
      have hne1 : (x :: xs : List String) ≠ [] := by simp
      have hne2 : (y :: ys : List String) ≠ [] := by simp
      have hmap : (PyHMM.map_tokens_to_observations (x :: xs)).length =
          (PyHMM.map_tokens_to_observations (y :: ys)).length := by
        simp [PyHMM.map_tokens_to_observations]
        simpa using hl
      have hvit := pipeline_viterbi_length_only _ _ hmap
      simp [PyHMM.predict_intent, hne1, hne2, hvit]

/-- Witness for C10 on two concrete, different token lists of equal
length. -/
theorem claim_C10_content_independence_witness :
    (["os.listdir", "x"] : List String).length = (["print", "open"] : List String).length ∧
    (PyHMM.predict_intent pipelineHMM ["os.listdir", "x"]).lookup "states" =
      (PyHMM.predict_intent pipelineHMM ["print", "open"]).lookup "states" :=
  ⟨by decide,
   claim_C10_content_independence ["os.listdir", "x"] ["print", "open"] (by decide)⟩

theorem vgo_length (h : PyHMM) (c : List ℚ × List ℕ) :
    ∀ l : List String, (h.vgo c l).length = l.length + 1 := by
  intro l
  induction l generalizing c with
  | nil => simp [PyHMM.vgo]
  | cons o rest ih => simp [PyHMM.vgo, ih]

theorem vgo_getD_zero (h : PyHMM) (c : List ℚ × List ℕ) (l : List String)
    (d : List ℚ × List ℕ) : (h.vgo c l).getD 0 d = c := by
  cases l <;> simp [PyHMM.vgo]

theorem vgo_getD_succ (h : PyHMM) :
    ∀ (l : List String) (c : List ℚ × List ℕ) (i : ℕ), i < l.length →
      (h.vgo c l).getD (i + 1) ([], []) =
        h.viterbiStep ((h.vgo c l).getD i ([], [])).1 (l.getD i "") := by
  intro l
  induction l with
  | nil => intro c i hi; simp at hi
  | cons o rest ih =>
    intro c i hi
    cases i with
    | zero =>
      show (h.vgo c (o :: rest)).getD 1 ([], []) = _
      rw [PyHMM.vgo, List.getD_cons_succ, vgo_getD_zero, List.getD_cons_zero,
        List.getD_cons_zero]
    | succ j =>
      have hj : j < rest.length := by simpa using hi
      simp only [PyHMM.vgo, List.getD_cons_succ, List.getD_cons_zero]
      exact ih _ j hj

/-- On a two-element list whose entries are equal, the first argmax is
index `0`. -/
theorem listArgmax_two_tie {l : List ℚ} (h2 : l.length = 2)
    (he : l.getD 0 0 = l.getD 1 0) : listArgmax l = 0 := by
  match l, h2 with
  | [a, b], _ =>
    simp only [List.getD_cons_zero, List.getD_cons_succ] at he
    subst he
    simp [listArgmax, listMax, firstIdxOf, max_self]

theorem getD_map_map_range {α β : Type} (f : ℕ → α) (g : α → β) {n s : ℕ}
    (hs : s < n) (d : β) :
    (((List.range n).map f).map g).getD s d = g (f s) := by
  rw [List.getD_eq_getElem _ d (by simpa using hs)]
  simp

/-- C1: for every model, observation sequence of length `≥ 2`, time step
`1 ≤ t < T` and state `s`, the viterbi tables satisfy
`V[s,t] = max_prev(V[prev,t-1]·transition[prev,s]) · emission(obs[t])[s]`
(the factor is a true maximum: attained, and an upper bound on every
predecessor product), and `B[s,t]` is the first (lowest-indexed)
predecessor achieving that maximum; in particular, in a two-state model
with identical predecessor products, state `0` is selected. -/
theorem claim_C1_viterbi_recurrence (h : PyHMM) (obs : List String) (t s : ℕ)
    (hT : 2 ≤ obs.length) (ht1 : 1 ≤ t) (ht2 : t < obs.length) (hs : s < h.nH) :
    let cols := h.viterbiCols obs
    let tp := h.transProbs (cols.getD (t - 1) ([], [])).1 s
    let e := h.get_emission_probs (h.get_observation_index (obs.getD t ""))
    (cols.getD t ([], [])).1.getD s 0 = listMax tp * e.getD s 0 ∧
    (∃ p < h.nH, tp.getD p 0 = listMax tp) ∧
    (∀ p < h.nH, tp.getD p 0 ≤ listMax tp) ∧
    (cols.getD t ([], [])).2.getD s 0 = listArgmax tp ∧
    tp.getD (listArgmax tp) 0 = listMax tp ∧
    (∀ p < listArgmax tp, tp.getD p 0 < listMax tp) ∧
    (h.nH = 2 → tp.getD 0 0 = tp.getD 1 0 → (cols.getD t ([], [])).2.getD s 0 = 0) := by
  intro cols tp e
  have hnH : 0 < h.nH := lt_of_le_of_lt (Nat.zero_le s) hs
  -- decompose the observations
  cases obs with
  | nil => simp at hT
  | cons o rest =>
    cases t with
    | zero => simp at ht1
    | succ i =>
      have hi : i < rest.length := by simpa using ht2
      -- the columns are the forward pass from the first column
      have hcols : cols = h.vgo (h.viterbiFirstCol o, List.replicate h.nH 0) rest := rfl
      have hsucc := vgo_getD_succ h rest (h.viterbiFirstCol o, List.replicate h.nH 0) i hi
      have hobs : ((o :: rest).getD (i + 1) "") = rest.getD i "" := by
        simp
      have hstep : cols.getD (i + 1) ([], []) =
          h.viterbiStep (cols.getD i ([], [])).1 ((o :: rest).getD (i + 1) "") := by
        rw [hcols, hobs]
        exact hsucc
      have hprev : (i + 1) - 1 = i := rfl
      -- lengths of the trans_probs vector
      have htp_len : tp.length = h.nH := by
        simp [tp, PyHMM.transProbs]
      have htp_ne : tp ≠ [] := by
        intro hnil
        rw [hnil] at htp_len
        simp at htp_len
        omega
      have hargmax_lt : listArgmax tp < h.nH := by
        rw [← htp_len]; exact listArgmax_lt_length htp_ne
      -- the V and B entries at (s, t)
      have hV : (cols.getD (i + 1) ([], [])).1.getD s 0 = listMax tp * e.getD s 0 := by
        rw [hstep]
        show ((((List.range h.nH).map _).map Prod.fst).getD s 0) = _
        rw [getD_map_map_range _ _ hs]
        rfl
      have hB : (cols.getD (i + 1) ([], [])).2.getD s 0 = listArgmax tp := by
        rw [hstep]
        show ((((List.range h.nH).map _).map Prod.snd).getD s 0) = _
        rw [getD_map_map_range _ _ hs]
        rfl
      refine ⟨hV, ?_, ?_, hB, ?_, ?_, ?_⟩
      · obtain ⟨p, hp, hval⟩ := exists_getD_eq_listMax htp_ne
        exact ⟨p, by rwa [htp_len] at hp, hval⟩
      · intro p hp
        exact getD_le_listMax (by rwa [htp_len])
      · exact getD_listArgmax htp_ne
      · intro p hp
        have hple : tp.getD p 0 ≤ listMax tp :=
          getD_le_listMax (by rw [htp_len]; exact hp.trans hargmax_lt)
        exact lt_of_le_of_ne hple (getD_lt_listArgmax hp)
      · intro hn2 htie
        rw [hB]
        exact listArgmax_two_tie (by rw [htp_len, hn2]) htie

/-- Witness for C1: on the two-state tie model both predecessor products at
`t = 1`, `s = 0` are equal and the backpointer selects state `0`. -/
theorem claim_C1_viterbi_recurrence_witness :
    2 ≤ (["x", "y"] : List String).length ∧ tieHMM.nH = 2 ∧
    (tieHMM.transProbs ((tieHMM.viterbiCols ["x", "y"]).getD 0 ([], [])).1 0).getD 0 0 =
      (tieHMM.transProbs ((tieHMM.viterbiCols ["x", "y"]).getD 0 ([], [])).1 0).getD 1 0 ∧
    ((tieHMM.viterbiCols ["x", "y"]).getD 1 ([], [])).2.getD 0 0 = 0 := by
  have hn2 : tieHMM.nH = 2 := rfl
  have htie :
      (tieHMM.transProbs ((tieHMM.viterbiCols ["x", "y"]).getD 0 ([], [])).1 0).getD 0 0 =
        (tieHMM.transProbs ((tieHMM.viterbiCols ["x", "y"]).getD 0 ([], [])).1 0).getD 1 0 := by
    simp [PyHMM.viterbiCols, PyHMM.vgo, PyHMM.viterbiFirstCol,
      PyHMM.get_observation_index, tieHMM, PyHMM.transProbs, PyHMM.nH,
      List.range_succ]
  have main := claim_C1_viterbi_recurrence tieHMM ["x", "y"] 1 0
    (by decide) (by decide) (by decide) (by decide)
  exact ⟨by decide, hn2, htie, main.2.2.2.2.2.2 hn2 htie⟩

theorem mem_insertAscIdx {sims : List ℚ} {i x : ℕ} :
    ∀ {s : List ℕ}, x ∈ insertAscIdx sims i s ↔ x = i ∨ x ∈ s := by
  intro s
  induction s with
  | nil => simp [insertAscIdx]
  | cons j js ih =>
    rw [insertAscIdx]
    by_cases hc : sims.getD i 0 ≤ sims.getD j 0
    · rw [if_pos hc]
      simp
    · rw [if_neg hc]
      simp only [List.mem_cons, ih]
      tauto

/-- Inserting an index smaller than everything in an ascending stable list
keeps the list sorted by similarity with ties in ascending index order. -/
theorem pairwise_insertAscIdx (sims : List ℚ) (i : ℕ) :
    ∀ (s : List ℕ),
      s.Pairwise (fun a b => sims.getD a 0 ≤ sims.getD b 0 ∧
        (sims.getD a 0 = sims.getD b 0 → a < b)) →
      (∀ j ∈ s, i < j) →
      (insertAscIdx sims i s).Pairwise (fun a b => sims.getD a 0 ≤ sims.getD b 0 ∧
        (sims.getD a 0 = sims.getD b 0 → a < b)) := by
  intro s
  induction s with
  | nil =>
    intro _ _
    simp [insertAscIdx]
  | cons j js ih =>
    intro hp hlt
    rw [List.pairwise_cons] at hp
    rw [insertAscIdx]
    by_cases hc : sims.getD i 0 ≤ sims.getD j 0
    · rw [if_pos hc]
      rw [List.pairwise_cons]
      refine ⟨?_, List.pairwise_cons.mpr hp⟩
      intro x hx
      rcases List.mem_cons.mp hx with hx | hx
      · subst hx
        exact ⟨hc, fun _ => hlt x (List.mem_cons_self _ _)⟩
      · refine ⟨hc.trans (hp.1 x hx).1, fun _ => hlt x (List.mem_cons_of_mem _ hx)⟩
    · rw [if_neg hc]
      rw [List.pairwise_cons]
      constructor
      · intro x hx
        rcases mem_insertAscIdx.mp hx with hx | hx
        · subst hx
          have hlt' : sims.getD j 0 < sims.getD x 0 := lt_of_not_le hc
          exact ⟨le_of_lt hlt', fun he => absurd he (ne_of_lt hlt')⟩
        · exact hp.1 x hx
      · exact ih hp.2 (fun x hx => hlt x (List.mem_cons_of_mem _ hx))

/-- The stable argsort of a strictly increasing index list is sorted by
similarity with ties in ascending index order. -/
theorem pairwise_argsortStable (sims : List ℚ) :
    ∀ l : List ℕ, l.Pairwise (· < ·) →
      (argsortStable sims l).Pairwise (fun a b => sims.getD a 0 ≤ sims.getD b 0 ∧
        (sims.getD a 0 = sims.getD b 0 → a < b)) := by
  intro l
  induction l with
  | nil =>
    intro _
    simp [argsortStable]
  | cons i is ih =>
    intro hp
    rw [List.pairwise_cons] at hp
    rw [argsortStable]
    refine pairwise_insertAscIdx sims i _ (ih hp.2) ?_
    intro j hj
    -- membership in the argsort is membership in the input
    have hmem : ∀ x (s : List ℕ), x ∈ argsortStable sims s → x ∈ s := by
      intro x s
      induction s with
      | nil => simp [argsortStable]
      | cons y ys ihy =>
        intro hx
        rw [argsortStable] at hx
        rcases mem_insertAscIdx.mp hx with hx | hx
        · simp [hx]
        · exact List.mem_cons_of_mem _ (ihy hx)
    exact hp.1 j (hmem j is hj)

theorem npArgsort_pairwise (sims : List ℚ) :
    (npArgsort sims).Pairwise (fun a b => sims.getD a 0 ≤ sims.getD b 0 ∧
      (sims.getD a 0 = sims.getD b 0 → a < b)) :=
  pairwise_argsortStable sims _ (List.pairwise_lt_range _)

theorem length_insertAscIdx (sims : List ℚ) (i : ℕ) :
    ∀ s : List ℕ, (insertAscIdx sims i s).length = s.length + 1 := by
  intro s
  induction s with
  | nil => simp [insertAscIdx]
  | cons j js ih =>
    rw [insertAscIdx]
    by_cases hc : sims.getD i 0 ≤ sims.getD j 0
    · rw [if_pos hc]; simp
    · rw [if_neg hc]; simp [ih]

theorem length_argsortStable (sims : List ℚ) :
    ∀ l : List ℕ, (argsortStable sims l).length = l.length := by
  intro l
  induction l with
  | nil => rfl
  | cons i is ih => rw [argsortStable, length_insertAscIdx, ih, List.length_cons]

/-- The selected top indices are sorted by non-increasing similarity with
ties in descending original index order. -/
theorem topIndices_pairwise (sims : List ℚ) (k : ℕ) :
    (topIndices sims k).Pairwise (fun a b => sims.getD b 0 ≤ sims.getD a 0 ∧
      (sims.getD b 0 = sims.getD a 0 → b < a)) := by
  have h1 := npArgsort_pairwise sims
  have h2 : (pySliceLast (npArgsort sims) k).Pairwise
      (fun a b => sims.getD a 0 ≤ sims.getD b 0 ∧
        (sims.getD a 0 = sims.getD b 0 → a < b)) := by
    rw [pySliceLast]
    by_cases hk : k = 0
    · rw [if_pos hk]; exact h1
    · rw [if_neg hk]
      exact h1.sublist (List.drop_sublist _ _)
  rw [topIndices, List.pairwise_reverse]
  exact h2

theorem topIndices_length_le (sims : List ℚ) (k : ℕ) (hk : 1 ≤ k) :
    (topIndices sims k).length ≤ k := by
  rw [topIndices, List.length_reverse, pySliceLast, if_neg (by omega)]
  rw [List.length_drop]
  omega

theorem buildResults_length (db : List String) (sims : List ℚ) :
    ∀ (sel : List ℕ) (c : ℕ), (buildResults db sims sel c).length = sel.length := by
  intro sel
  induction sel with
  | nil => intro c; rfl
  | cons i is ih => intro c; rw [buildResults, List.length_cons, List.length_cons, ih]

theorem buildResults_map_similarity (db : List String) (sims : List ℚ) :
    ∀ (sel : List ℕ) (c : ℕ),
      (buildResults db sims sel c).map SimResult.similarity =
        sel.map (fun i => sims.getD i 0) := by
  intro sel
  induction sel with
  | nil => intro c; rfl
  | cons i is ih => intro c; rw [buildResults, List.map_cons, List.map_cons, ih]

theorem buildResults_rank (db : List String) (sims : List ℚ) :
    ∀ (sel : List ℕ) (c p : ℕ), p < sel.length →
      ((buildResults db sims sel c).getD p ⟨"", 0, 0⟩).rank = c + p + 1 := by
  intro sel
  induction sel with
  | nil => intro c p hp; simp at hp
  | cons i is ih =>
    intro c p hp
    cases p with
    | zero => rfl
    | succ q =>
      rw [buildResults, List.getD_cons_succ]
      rw [ih (c + 1) q (by simpa using hp)]
      omega

/-- C5 counterexample: with two records of equal similarity and `top_k = 2`,
the matcher returns record 1 before record 0 — ties come out in *reverse*
original order, not the stable original order the claim requires. -/
theorem claim_C5_counterexample :
    (find_similar_functions ["a", "b"] [1 / 2, 1 / 2] 2).map SimResult.function =
      ["b", "a"] ∧
    (find_similar_functions ["a", "b"] [1 / 2, 1 / 2] 2).map SimResult.function ≠
      ["a", "b"] := by
  have h : (find_similar_functions ["a", "b"] [1 / 2, 1 / 2] 2).map SimResult.function =
      ["b", "a"] := by
    rw [find_similar_functions, if_neg (by simp)]
    norm_num [topIndices, npArgsort, argsortStable,
      insertAscIdx, pySliceLast, buildResults, List.range_succ]
  refine ⟨h, ?_⟩
  rw [h]
  simp

/-- C5 (amended): for `top_k = k ≥ 1` the matcher returns at most `k`
results, ordered by non-increasing similarity with ties between equal
similarities in *descending* original record order (under the index-stable
model of `np.argsort`), and with rank fields `1, 2, ...` in result
order. -/
theorem claim_C5_amended (db : List String) (sims : List ℚ) (k : ℕ) (hk : 1 ≤ k) :
    (find_similar_functions db sims k).length ≤ k ∧
    (topIndices sims k).Pairwise (fun a b => sims.getD b 0 ≤ sims.getD a 0 ∧
      (sims.getD b 0 = sims.getD a 0 → b < a)) ∧
    (find_similar_functions db sims k).Pairwise
      (fun r1 r2 => r2.similarity ≤ r1.similarity) ∧
    (∀ p < (find_similar_functions db sims k).length,
      ((find_similar_functions db sims k).getD p ⟨"", 0, 0⟩).rank = p + 1) := by
  by_cases hdb : db = []
  · refine ⟨?_, topIndices_pairwise sims k, ?_, ?_⟩ <;>
      simp [find_similar_functions, hdb]
  · have hfind : find_similar_functions db sims k =
        buildResults db sims (topIndices sims k) 0 := by
      rw [find_similar_functions, if_neg hdb]
    refine ⟨?_, topIndices_pairwise sims k, ?_, ?_⟩
    · rw [hfind, buildResults_length]
      exact topIndices_length_le sims k hk
    · have hsim : ((find_similar_functions db sims k).map SimResult.similarity).Pairwise
          (fun a b => b ≤ a) := by
        rw [hfind, buildResults_map_similarity, List.pairwise_map]
        exact (topIndices_pairwise sims k).imp (fun hab => hab.1)
      exact List.pairwise_map.mp hsim
    · intro p hp
      rw [hfind] at hp ⊢
      rw [buildResults_length] at hp
      rw [buildResults_rank db sims _ 0 p hp]
      omega

/-- Witness for C5 (amended) on a concrete three-record database. -/
theorem claim_C5_amended_witness :
    1 ≤ 2 ∧
    ((find_similar_functions ["a", "b", "c"] [1 / 4, 1 / 2, 1 / 2] 2).length ≤ 2 ∧
      (topIndices [1 / 4, 1 / 2, 1 / 2] 2).Pairwise
        (fun a b => ([ (1 : ℚ) / 4, 1 / 2, 1 / 2].getD b 0 ≤
            [(1 : ℚ) / 4, 1 / 2, 1 / 2].getD a 0) ∧
          ([(1 : ℚ) / 4, 1 / 2, 1 / 2].getD b 0 =
              [(1 : ℚ) / 4, 1 / 2, 1 / 2].getD a 0 → b < a)) ∧
      (find_similar_functions ["a", "b", "c"] [1 / 4, 1 / 2, 1 / 2] 2).Pairwise
        (fun r1 r2 => r2.similarity ≤ r1.similarity) ∧
      (∀ p < (find_similar_functions ["a", "b", "c"] [1 / 4, 1 / 2, 1 / 2] 2).length,
        ((find_similar_functions ["a", "b", "c"] [1 / 4, 1 / 2, 1 / 2] 2).getD p
            ⟨"", 0, 0⟩).rank = p + 1)) :=
  ⟨by decide, claim_C5_amended ["a", "b", "c"] [1 / 4, 1 / 2, 1 / 2] 2 (by decide)⟩

theorem getWeight_eq_rowW (tbl : CoTable) (a b : String) :
    getWeight tbl a b =
      match alookup tbl a with
      | none => 0
      | some row => rowW row b := by
  rw [getWeight]
  rcases alookup tbl a with _ | row <;> rfl

theorem rowW_bumpEntry (key : String) (lr : ℚ) (b : String) :
    ∀ row : List (String × ℚ),
      rowW (bumpEntry key lr row) b = rowW row b + (if key = b then lr else 0) := by
  intro row
  induction row with
  | nil =>
    by_cases hk : key = b <;> simp [bumpEntry, rowW, alookup, hk]
  | cons e rest ih =>
    obtain ⟨k, v⟩ := e
    by_cases hkk : k = key
    · subst hkk
      by_cases hk : k = b <;> simp [bumpEntry, rowW, alookup, hk]
    · rw [bumpEntry, if_neg hkk]
      by_cases hkb : k = b
      · subst hkb
        have hkey : key ≠ k := fun he => hkk he.symm
        simp [rowW, alookup, hkey]
      · simp only [rowW, alookup, if_neg hkb] at ih ⊢
        exact ih

theorem getWeight_cons_self (k : String) (row : List (String × ℚ)) (rest : CoTable)
    (b : String) : getWeight ((k, row) :: rest) k b = rowW row b := by
  rw [getWeight_eq_rowW]
  simp [alookup]

theorem getWeight_cons_ne {k a : String} (h : k ≠ a) (row : List (String × ℚ))
    (rest : CoTable) (b : String) :
    getWeight ((k, row) :: rest) a b = getWeight rest a b := by
  rw [getWeight_eq_rowW, getWeight_eq_rowW]
  simp [alookup, h]

theorem getWeight_updateRow (f nf : String) (lr : ℚ) (a b : String) :
    ∀ tbl : CoTable,
      getWeight (updateRow f nf lr tbl) a b =
        getWeight tbl a b + (if f = a ∧ nf = b then lr else 0) := by
  intro tbl
  induction tbl with
  | nil =>
    by_cases hfa : f = a
    · subst hfa
      by_cases hnb : nf = b <;>
        simp [updateRow, getWeight, alookup, rowW, hnb]
    · simp [updateRow, getWeight, alookup, hfa, fun h : f = a ∧ nf = b => hfa h.1]
  | cons e rest ih =>
    obtain ⟨k, row⟩ := e
    rw [updateRow]
    by_cases hkf : k = f
    · rw [if_pos hkf]
      subst hkf
      by_cases hka : k = a
      · subst hka
        rw [getWeight_cons_self, getWeight_cons_self, rowW_bumpEntry]
        by_cases hnb : nf = b <;> simp [hnb]
      · rw [getWeight_cons_ne hka, getWeight_cons_ne hka,
          if_neg (fun h : k = a ∧ nf = b => hka h.1), add_zero]
    · rw [if_neg hkf]
      by_cases hka : k = a
      · subst hka
        rw [getWeight_cons_self, getWeight_cons_self,
          if_neg (fun h : f = k ∧ nf = b => hkf h.1.symm), add_zero]
      · rw [getWeight_cons_ne hka, getWeight_cons_ne hka]
        exact ih

theorem getWeight_update_cooccurrence (f nf a b : String) (tbl : CoTable)
    (ha : a ≠ "") (hb : b ≠ "") :
    getWeight (update_cooccurrence f nf tbl) a b =
      getWeight tbl a b +
        (if f = a ∧ nf = b then COOCCURRENCE_LEARNING_RATE else 0) := by
  rw [update_cooccurrence]
  by_cases hemp : f = "" ∨ nf = ""
  · rw [if_pos hemp]
    have : ¬(f = a ∧ nf = b) := by
      rcases hemp with h | h
      · exact fun hc => ha (hc.1.symm.trans h)
      · exact fun hc => hb (hc.2.symm.trans h)
    rw [if_neg this, add_zero]
  · rw [if_neg hemp]
    exact getWeight_updateRow f nf _ a b tbl

theorem getWeight_applyUpdates (a b : String) (ha : a ≠ "") (hb : b ≠ "") :
    ∀ (ps : List (String × String)) (tbl : CoTable),
      getWeight (applyUpdates tbl ps) a b =
        getWeight tbl a b + COOCCURRENCE_LEARNING_RATE *
          ((ps.countP (fun p => decide (p.1 = a ∧ p.2 = b)) : ℕ) : ℚ) := by
  intro ps
  induction ps with
  | nil => intro tbl; simp [applyUpdates]
  | cons p ps' ih =>
    intro tbl
    have hstep : applyUpdates tbl (p :: ps') =
        applyUpdates (update_cooccurrence p.1 p.2 tbl) ps' := rfl
    rw [hstep, ih, getWeight_update_cooccurrence p.1 p.2 a b tbl ha hb,
      List.countP_cons]
    by_cases hc : p.1 = a ∧ p.2 = b
    · have hd : (decide (p.1 = a ∧ p.2 = b)) = true := by simp [hc.1, hc.2]
      rw [if_pos hc, hd, if_pos rfl]
      push_cast
      ring
    · have hd : (decide (p.1 = a ∧ p.2 = b)) = false := by simpa using hc
      rw [if_neg hc, hd]
      norm_num

theorem applyUpdates_append (tbl : CoTable) (xs ys : List (String × String)) :
    applyUpdates tbl (xs ++ ys) = applyUpdates (applyUpdates tbl xs) ys := by
  rw [applyUpdates, applyUpdates, applyUpdates, List.foldl_append]

theorem foldl_applyUpdates_flatMap {α : Type} (g : α → List (String × String)) :
    ∀ (l : List α) (tbl : CoTable),
      l.foldl (fun t x => applyUpdates t (g x)) tbl = applyUpdates tbl (l.flatMap g) := by
  intro l
  induction l with
  | nil => intro tbl; rfl
  | cons x xs ih =>
    intro tbl
    rw [List.foldl_cons, ih, List.flatMap_cons, applyUpdates_append]

theorem foldl_update_map (ns : List String) (f : String) (t : CoTable) :
    ns.foldl (fun t3 nf => update_cooccurrence f nf t3) t =
      applyUpdates t (ns.map (fun nf => (f, nf))) := by
  rw [applyUpdates, List.foldl_map]

/-- `learn_from_observed_lines` is exactly the fold of the pair updates
collected by `pairList`. -/
theorem learn_eq_applyUpdates :
    ∀ (lines : List (List String)) (tbl : CoTable),
      learn_from_observed_lines tbl lines = applyUpdates tbl (pairList lines) := by
  intro lines
  induction lines with
  | nil => intro tbl; rfl
  | cons obs rest ih =>
    intro tbl
    rw [learn_from_observed_lines, ih]
    simp only [foldl_update_map]
    simp only [foldl_applyUpdates_flatMap]
    rw [pairList, applyUpdates_append, linePairs]

theorem mem_take_getD {line : List String} {n : ℕ} :
    ∀ {l : List (List String)},
      line ∈ l.take n ↔ ∃ m, m < n ∧ m < l.length ∧ l.getD m [] = line := by
  intro l
  constructor
  · intro hmem
    obtain ⟨m, hm, heq⟩ := List.mem_iff_getElem.mp hmem
    have hlen : m < n ∧ m < l.length := by
      have := hm
      rw [List.length_take] at this
      omega
    refine ⟨m, hlen.1, hlen.2, ?_⟩
    rw [List.getD_eq_getElem l [] hlen.2, ← heq, List.getElem_take]
  · rintro ⟨m, hmn, hml, heq⟩
    have hm : m < (l.take n).length := by
      rw [List.length_take]; omega
    refine List.mem_iff_getElem.mpr ⟨m, hm, ?_⟩
    rw [List.getElem_take, ← List.getD_eq_getElem l [] hml, heq]

/-- Membership in `pairList`: the pair `(a, b)` is collected exactly when
`a` is a function of some line `i` and `b` a function of a line `j` within
the next three lines. -/
theorem mem_pairList (a b : String) :
    ∀ lines : List (List String),
      (a, b) ∈ pairList lines ↔
        ∃ i j : ℕ, i < j ∧ j < i + 4 ∧ j < lines.length ∧
          a ∈ extractFuncs (lines.getD i []) ∧ b ∈ extractFuncs (lines.getD j []) := by
  intro lines
  induction lines with
  | nil =>
    simp [pairList]
  | cons obs rest ih =>
    rw [pairList, List.mem_append, ih]
    constructor
    · rintro (hhead | ⟨i, j, h1, h2, h3, h4, h5⟩)
      · have hm : a ∈ extractFuncs obs ∧ ∃ line ∈ rest.take 3, b ∈ extractFuncs line := by
          simp only [linePairs, List.mem_flatMap, List.mem_map, Prod.mk.injEq] at hhead
          obtain ⟨f, hf, line, hline, nf, hnf, hfa, hnfb⟩ := hhead
          exact ⟨hfa ▸ hf, line, hline, hnfb ▸ hnf⟩
        obtain ⟨ha, line, hline, hb⟩ := hm
        obtain ⟨m, hm3, hml, hmeq⟩ := mem_take_getD.mp hline
        refine ⟨0, m + 1, by omega, by omega, by simpa using hml, by simpa using ha, ?_⟩
        rw [List.getD_cons_succ, hmeq]
        exact hb
      · exact ⟨i + 1, j + 1, by omega, by omega, by simpa using h3,
          by simpa using h4, by simpa using h5⟩
    · rintro ⟨i, j, h1, h2, h3, h4, h5⟩
      cases i with
      | zero =>
        left
        obtain ⟨m, rfl⟩ : ∃ m, j = m + 1 := ⟨j - 1, by omega⟩
        simp only [linePairs, List.mem_flatMap, List.mem_map, Prod.mk.injEq]
        refine ⟨a, by simpa using h4, rest.getD m [], ?_, b, ?_, rfl, rfl⟩
        · exact mem_take_getD.mpr ⟨m, by omega, by simpa using h3, rfl⟩
        · rw [List.getD_cons_succ] at h5
          exact h5
      | succ i' =>
        right
        obtain ⟨j', rfl⟩ : ∃ j', j = j' + 1 := ⟨j - 1, by omega⟩
        exact ⟨i', j', by omega, by omega, by simpa using h3,
          by simpa using h4, by simpa using h5⟩

/-- C7 (amended): observing a sequence bumps every ordered pair
`a → b` (with `FUNC:a` on a line and `FUNC:b` on one of the next three
lines) by the learning rate `0.1` per qualifying occurrence; and a
suggestion query for `a` includes `b` with score
`max(count / (row_sum + ε), MIN_SUGGESTION_SCORE)` — always positive —
*whenever `b` ranks among the `top_k` heaviest entries of `a`'s row* (in
particular whenever `a` has at most `top_k` successors). -/
theorem claim_C7_amended :
    (∀ (tbl : CoTable) (lines : List (List String)) (a b : String),
      a ≠ "" → b ≠ "" →
      getWeight (learn_from_observed_lines tbl lines) a b =
        getWeight tbl a b + COOCCURRENCE_LEARNING_RATE *
          (((pairList lines).countP (fun p => decide (p.1 = a ∧ p.2 = b)) : ℕ) : ℚ)) ∧
    (∀ (lines : List (List String)) (a b : String),
      (a, b) ∈ pairList lines ↔
        ∃ i j : ℕ, i < j ∧ j < i + 4 ∧ j < lines.length ∧
          a ∈ extractFuncs (lines.getD i []) ∧ b ∈ extractFuncs (lines.getD j [])) ∧
    (∀ (tbl : CoTable) (a : String) (k : ℕ) (row : List (String × ℚ))
        (b : String) (c : ℚ),
      alookup tbl a = some row → (b, c) ∈ mostCommon row k →
      (⟨b, max (c / ((row.map Prod.snd).sum + 1 / 1000000000)) MIN_SUGGESTION_SCORE⟩ :
          Suggestion) ∈ get_cooccurrence_suggestions tbl a k ∧
      0 < max (c / ((row.map Prod.snd).sum + 1 / 1000000000)) MIN_SUGGESTION_SCORE) := by
  refine ⟨?_, ?_, ?_⟩
  · intro tbl lines a b ha hb
    rw [learn_eq_applyUpdates, getWeight_applyUpdates a b ha hb]
  · intro lines a b
    exact mem_pairList a b lines
  · intro tbl a k row b c hrow hmem
    constructor
    · simp only [get_cooccurrence_suggestions, hrow]
      exact List.mem_map.mpr ⟨(b, c), hmem, rfl⟩
    · exact lt_of_lt_of_le (by norm_num [MIN_SUGGESTION_SCORE]) (le_max_right _ _)

/-- Witness for C7 (amended): a two-line observation, its recorded pair,
and a suggestion drawn from a one-entry row. -/
theorem claim_C7_amended_witness :
    getWeight
        (learn_from_observed_lines [] [["FUNC:f"], ["FUNC:g"]]) "f" "g" =
      getWeight ([] : CoTable) "f" "g" + COOCCURRENCE_LEARNING_RATE *
        (((pairList [["FUNC:f"], ["FUNC:g"]]).countP
            (fun p => decide (p.1 = "f" ∧ p.2 = "g")) : ℕ) : ℚ) ∧
    ("f", "g") ∈ pairList [["FUNC:f"], ["FUNC:g"]] ∧
    (⟨"g", max (COOCCURRENCE_LEARNING_RATE /
          (([("g", COOCCURRENCE_LEARNING_RATE)].map Prod.snd).sum + 1 / 1000000000))
        MIN_SUGGESTION_SCORE⟩ : Suggestion) ∈
      get_cooccurrence_suggestions [("f", [("g", COOCCURRENCE_LEARNING_RATE)])] "f" 5 := by
  refine ⟨claim_C7_amended.1 [] [["FUNC:f"], ["FUNC:g"]] "f" "g" (by decide) (by decide),
    ?_, ?_⟩
  · exact (claim_C7_amended.2.1 [["FUNC:f"], ["FUNC:g"]] "f" "g").mpr
      ⟨0, 1, by omega, by omega, by decide, by decide, by decide⟩
  · exact (claim_C7_amended.2.2 [("f", [("g", COOCCURRENCE_LEARNING_RATE)])] "f" 5
      [("g", COOCCURRENCE_LEARNING_RATE)] "g" COOCCURRENCE_LEARNING_RATE rfl
      (by simp [mostCommon, sortDescCount, insertDescCount])).1

/-- C7 counterexample: observing `FUNC:a` followed (within the window) by
five other functions and then `FUNC:b` records the pair `a → b` with weight
`0.1`, yet the suggestion query for `a` (default `top_k = 5`) does not
include `b` — the claim's unconditional "includes b" fails when the row has
more than `top_k` competitors. -/
theorem claim_C7_counterexample :
    getWeight
        (learn_from_observed_lines []
          [["FUNC:a"], ["FUNC:c1", "FUNC:c2", "FUNC:c3", "FUNC:c4", "FUNC:c5", "FUNC:b"]])
        "a" "b" = COOCCURRENCE_LEARNING_RATE ∧
    (get_cooccurrence_suggestions
        (learn_from_observed_lines []
          [["FUNC:a"], ["FUNC:c1", "FUNC:c2", "FUNC:c3", "FUNC:c4", "FUNC:c5", "FUNC:b"]])
        "a" 5).map Suggestion.function = ["c1", "c2", "c3", "c4", "c5"] ∧
    "b" ∉ ["c1", "c2", "c3", "c4", "c5"] := by
  have htbl : learn_from_observed_lines []
      [["FUNC:a"], ["FUNC:c1", "FUNC:c2", "FUNC:c3", "FUNC:c4", "FUNC:c5", "FUNC:b"]] =
      [("a", [("c1", COOCCURRENCE_LEARNING_RATE), ("c2", COOCCURRENCE_LEARNING_RATE),
        ("c3", COOCCURRENCE_LEARNING_RATE), ("c4", COOCCURRENCE_LEARNING_RATE),
        ("c5", COOCCURRENCE_LEARNING_RATE), ("b", COOCCURRENCE_LEARNING_RATE)])] := rfl
  refine ⟨?_, ?_, by decide⟩
  · rw [htbl]
    simp [getWeight, alookup, rowW]
  · rw [htbl]
    simp [get_cooccurrence_suggestions, alookup, mostCommon, sortDescCount,
      insertDescCount, le_refl]

end MarkovSuggestor
